import Mathlib

set_option autoImplicit false
set_option maxRecDepth 100000

/-!
Shallow embedding of the virtual-file-system preview bundler
(src/utils.ts, src/App.tsx) of the repository, together with proofs
of the specification claims about it.

Strings are modelled by Lean `String` (a wrapper around `List Char`);
the JavaScript regular-expression rewrites of `buildPreviewContent` are
embedded as explicit scanners implementing the exact backtracking
semantics of the three patterns appearing in the source.
-/

namespace Preview

/-! ## Basic character-list utilities mirroring JavaScript string operations -/

/-- Does the list `l` start with the pattern `p`? (JS `String.prototype.startsWith`). -/
def startsWithL : List Char → List Char → Bool
  | [], _ => true
  | _ :: _, [] => false
  | p :: ps, c :: cs => p = c && startsWithL ps cs

/-- Length of the maximal prefix of `l` whose characters satisfy `p`. -/
def countWhile (p : Char → Bool) : List Char → Nat
  | [] => 0
  | c :: cs => if p c then countWhile p cs + 1 else 0

/-- Tail-recursive worker for the first-occurrence search: `racc` holds
the characters already skipped, in reverse. -/
def splitFirstAux (needle : List Char) (racc : List Char) :
    List Char → Option (List Char × List Char)
  | [] => if needle.isEmpty then some (racc.reverse, []) else none
  | c :: t =>
    if startsWithL needle (c :: t) then some (racc.reverse, (c :: t).drop needle.length)
    else splitFirstAux needle (c :: racc) t

/-- First occurrence of `needle` in `hay`: `some (pre, post)` with
`hay = pre ++ needle ++ post` and `pre` shortest, else `none`. -/
def splitFirstL (needle hay : List Char) : Option (List Char × List Char) :=
  splitFirstAux needle [] hay

/-- JS `String.prototype.includes` (via the first-occurrence search). -/
def containsSub (needle hay : String) : Bool :=
  (splitFirstL needle.data hay.data).isSome

/-- JS `String.prototype.startsWith`, on `String`. -/
def strStartsWith (s pre : String) : Bool :=
  startsWithL pre.data s.data

/-- JS `String.prototype.endsWith`, on `String`. -/
def strEndsWith (s post : String) : Bool :=
  startsWithL post.data.reverse s.data.reverse

/-- JS `String.prototype.slice(n)`: drop the first `n` characters. -/
def strDrop (s : String) (n : Nat) : String :=
  String.mk (s.data.drop n)

/-- Drop the last `n` characters of a string. -/
def strDropRight (s : String) (n : Nat) : String :=
  String.mk ((s.data.reverse.drop n).reverse)

/-- Split a character list at every occurrence of the separator
character (JS `String.prototype.split` with a one-character separator:
the result always has at least one, possibly empty, group). -/
def splitOnCh (sep : Char) : List Char → List (List Char)
  | [] => [[]]
  | c :: t =>
    if c = sep then [] :: splitOnCh sep t
    else
      match splitOnCh sep t with
      | [] => [[c]]
      | g :: gs => (c :: g) :: gs

/-- JS `String.prototype.split('/')`. -/
def strSplitOnSlash (s : String) : List String :=
  (splitOnCh '/' s.data).map String.mk

/-- Interleave a separator character between character-list groups
(JS `Array.prototype.join` with a one-character separator). -/
def joinWithCh (sep : Char) : List (List Char) → List Char
  | [] => []
  | [g] => g
  | g :: gs => g ++ sep :: joinWithCh sep gs

/-- JS `Array.prototype.join('/')` over strings. -/
def strJoinSlash (l : List String) : String :=
  String.mk (joinWithCh '/' (l.map String.data))

/-- Concatenate strings with a separator string between them. -/
def strIntercalate (sep : String) : List String → String
  | [] => ""
  | [x] => x
  | x :: xs => x ++ sep ++ strIntercalate sep xs

/-- ECMAScript GetSubstitution for a string-pattern replace with no
capture groups: in the replacement text, a double dollar yields one
dollar, dollar-ampersand the matched text, dollar-backtick the text
before the match, dollar-apostrophe the text after it; every other
character (a lone or trailing dollar included) is literal. -/
def getSubstitution (matched pre post : List Char) : List Char → List Char
  | [] => []
  | c :: rest =>
    if c = '$' then
      match rest with
      | [] => ['$']
      | d :: rest2 =>
        if d = '$' then '$' :: getSubstitution matched pre post rest2
        else if d = '&' then matched ++ getSubstitution matched pre post rest2
        else if d = '\x60' then pre ++ getSubstitution matched pre post rest2
        else if d = '\x27' then post ++ getSubstitution matched pre post rest2
        else '$' :: getSubstitution matched pre post (d :: rest2)
    else c :: getSubstitution matched pre post rest

/-- JS `String.prototype.replace` with a plain-string pattern and a
plain-string replacement: replaces the first occurrence only, applying
GetSubstitution to the replacement (the matched text of a string search
is the search string itself); returns the string unchanged when the
pattern is absent. -/
def replaceFirstStr (hay needle repl : String) : String :=
  match splitFirstL needle.data hay.data with
  | some (a, b) => String.mk (a ++ getSubstitution needle.data a b repl.data ++ b)
  | none => hay

/-- Does the string contain no dollar character? On such replacement
strings GetSubstitution is the identity. -/
def noDollar (s : String) : Bool :=
  !(s.data.any (fun c => c = '$'))

/-! ## encodeURIComponent and JSON.stringify string serialization -/

/-- Characters left unescaped by JS `encodeURIComponent`. -/
def isUnreservedURI (c : Char) : Bool :=
  ('A' ≤ c && c ≤ 'Z') || ('a' ≤ c && c ≤ 'z') || ('0' ≤ c && c ≤ '9') ||
  c = '-' || c = '_' || c = '.' || c = '!' || c = '~' || c = '*' ||
  c = '\x27' || c = '(' || c = ')'

/-- UTF-8 encoding of one character, as its byte values. -/
def utf8Bytes (c : Char) : List Nat :=
  let n := c.toNat
  if n < 0x80 then [n]
  else if n < 0x800 then [0xC0 + n / 64, 0x80 + n % 64]
  else if n < 0x10000 then [0xE0 + n / 4096, 0x80 + (n / 64) % 64, 0x80 + n % 64]
  else [0xF0 + n / 0x40000, 0x80 + (n / 4096) % 64, 0x80 + (n / 64) % 64, 0x80 + n % 64]

/-- Upper-case hexadecimal digit. -/
def hexDigitUpper (n : Nat) : Char :=
  if n < 10 then Char.ofNat (48 + n) else Char.ofNat (55 + n)

/-- Lower-case hexadecimal digit. -/
def hexDigitLower (n : Nat) : Char :=
  if n < 10 then Char.ofNat (48 + n) else Char.ofNat (87 + n)

/-- Percent-encoding of one byte, as in `encodeURIComponent`. -/
def percentEncodeByte (b : Nat) : List Char :=
  ['%', hexDigitUpper (b / 16), hexDigitUpper (b % 16)]

/-- JS `encodeURIComponent`. -/
def encodeURIComponent (s : String) : String :=
  String.mk (s.data.flatMap (fun c =>
    if isUnreservedURI c then [c]
    else (utf8Bytes c).flatMap percentEncodeByte))

/-- Escaping of one character inside a JSON string literal, as
produced by `JSON.stringify`. -/
def jsonEscapeChar (c : Char) : List Char :=
  if c = '"' then ['\\', '"']
  else if c = '\\' then ['\\', '\\']
  else if c = '\x08' then ['\\', 'b']
  else if c = '\x0c' then ['\\', 'f']
  else if c = '\n' then ['\\', 'n']
  else if c = '\r' then ['\\', 'r']
  else if c = '\t' then ['\\', 't']
  else if c.toNat < 0x20 then
    ['\\', 'u', '0', '0', hexDigitLower (c.toNat / 16), hexDigitLower (c.toNat % 16)]
  else [c]

/-- A JSON string literal for `s` (quotes included). -/
def jsonQuote (s : String) : String :=
  String.mk ('"' :: s.data.flatMap jsonEscapeChar ++ ['"'])

/-- `JSON.stringify(m, null, 2)` for a string-to-string record `m`
(keys in insertion order). -/
def jsonStringifyMap (m : List (String × String)) : String :=
  match m with
  | [] => "\x7b\x7d"
  | _ =>
    "\x7b\n" ++
    strIntercalate ",\n" (m.map (fun kv => "  " ++ jsonQuote kv.1 ++ ": " ++ jsonQuote kv.2)) ++
    "\n\x7d"

/-! ## The specifier resolver (src/utils.ts, resolveModuleSpecifier) -/

/-- Resolves a relative module specifier against a source file path
(src/utils.ts lines 30-50, translated statement by statement). -/
def resolveModuleSpecifier (sourcePath specifier : String) : String :=
  if !strStartsWith specifier "." && !strStartsWith specifier "/" then specifier
  else if strStartsWith specifier "/" then strDrop specifier 1
  else
    let sourceDir := (strSplitOnSlash sourcePath).dropLast
    let parts := strSplitOnSlash specifier
    let resolvedParts := parts.foldl (fun acc part =>
      if part = "." then acc
      else if part = ".." then acc.dropLast
      else acc ++ [part]) sourceDir
    strJoinSlash resolvedParts

/-- Segment-by-segment directory resolution exactly as worded in the
specification: a `.` segment is a no-op, a `..` segment pops the last
directory segment (popping past the root is a no-op), any other segment
is pushed. -/
def applySegments : List String → List String → List String
  | dir, [] => dir
  | dir, seg :: rest =>
    if seg = "." then applySegments dir rest
    else if seg = ".." then applySegments dir.dropLast rest
    else applySegments (dir ++ [seg]) rest

/-- The resolver as described by the specification's words (section 4.1),
used to compare the implementation against the spec. -/
def resolveSpecified (sourcePath specifier : String) : String :=
  if !strStartsWith specifier "." && !strStartsWith specifier "/" then specifier
  else if strStartsWith specifier "/" then strDrop specifier 1
  else
    strJoinSlash
      (applySegments ((strSplitOnSlash sourcePath).dropLast) (strSplitOnSlash specifier))

/-! ## The import-rewriting scanners

The source rewrites static and dynamic import specifiers with the
regular expressions (src/utils.ts lines 66 and 71)

  `((?:import|export)\s+(?:[\s\S]*?from\s+)?['"])([\.\/][^'"]+)(['"])`  (global)
  `(import\(['"])([\.\/][^'"]+)(['"]\))`                                 (global)

The scanners below implement the exact first-match backtracking
semantics of those patterns.
-/

/-- The JS `\s` character class. -/
def isJsSpace (c : Char) : Bool :=
  c = ' ' || c = '\t' || c = '\n' || c = '\r' || c = '\x0b' || c = '\x0c' ||
  c = '\u00A0' || c = '\u1680' || ('\u2000' ≤ c && c ≤ '\u200A') ||
  c = '\u2028' || c = '\u2029' || c = '\u202F' || c = '\u205F' ||
  c = '\u3000' || c = '\uFEFF'

/-- The quote class `['"]` of the source patterns. -/
def isQuote (c : Char) : Bool := c = '\x27' || c = '"'

/-- The class `[\.\/]` opening a matched specifier. -/
def isDotSlash (c : Char) : Bool := c = '.' || c = '/'

/-- Attempt to match `from\s+['"][\.\/][^'"]+['"]` at the head of `t`.
On success returns the number of characters consumed up to and including
the opening quote, the specifier, the closing quote and the remainder. -/
def tryFromQ (t : List Char) : Option (Nat × List Char × Char × List Char) :=
  if startsWithL "from".data t then
    let t1 := t.drop 4
    let n := countWhile isJsSpace t1
    if n = 0 then none
    else
      match t1.drop n with
      | [] => none
      | qc :: t2 =>
        if isQuote qc then
          match t2 with
          | [] => none
          | d :: _ =>
            if isDotSlash d then
              let spec := t2.takeWhile (fun c => !(isQuote c))
              if 2 ≤ spec.length then
                match t2.drop spec.length with
                | [] => none
                | cc :: rest => some (4 + n + 1, spec, cc, rest)
              else none
            else none
        else none
  else none

/-- Lazy scan of `(?:[\s\S]*?from\s+)?['"]...` inside the optional group:
finds the least offset at which `tryFromQ` succeeds. `racc` accumulates
the characters the lazy `[\s\S]*?` has skipped, in reverse; on success
the skipped prefix and the text consumed by `tryFromQ` up to the opening
quote are returned together with the specifier, the closing quote and
the remainder. -/
def scanFromQ (racc : List Char) : List Char → Option (List Char × List Char × Char × List Char)
  | [] => none
  | c :: ts =>
    match tryFromQ (c :: ts) with
    | some (len, spec, cc, rest) => some (racc.reverse ++ (c :: ts).take len, spec, cc, rest)
    | none => scanFromQ (c :: racc) ts

/-- Attempt to match `['"][\.\/][^'"]+['"]` at the head of `t`
(the branch where the optional `from` group is skipped); returns the
opening quote, the specifier, the closing quote and the remainder. -/
def tryQuoteSpec (t : List Char) : Option (Char × List Char × Char × List Char) :=
  match t with
  | [] => none
  | qc :: t2 =>
    if isQuote qc then
      match t2 with
      | [] => none
      | d :: _ =>
        if isDotSlash d then
          let spec := t2.takeWhile (fun c => !(isQuote c))
          if 2 ≤ spec.length then
            match t2.drop spec.length with
            | [] => none
            | cc :: rest => some (qc, spec, cc, rest)
          else none
        else none
    else none

/-- Attempt to match the static-import pattern at the head of `s`.
On success returns capture group 1 (keyword through the opening quote),
the specifier (group 2), the closing quote (group 3) and the remainder
of the string after the match. -/
def tryStaticAt (s : List Char) : Option (List Char × List Char × Char × List Char) :=
  if startsWithL "import".data s || startsWithL "export".data s then
    let s1 := s.drop 6
    let wn := countWhile isJsSpace s1
    if wn = 0 then none
    else
      let s2 := s1.drop wn
      let kwws := s.take (6 + wn)
      match scanFromQ [] s2 with
      | some (pre, spec, cc, rest) => some (kwws ++ pre, spec, cc, rest)
      | none =>
        match tryQuoteSpec s2 with
        | some (qc, spec, cc, rest) => some (kwws ++ [qc], spec, cc, rest)
        | none => none
  else none

/-- One global-replace pass of the static-import pattern, replacing each
matched specifier by its resolution against `path`. The first list is
fuel bounding the scan; it is instantiated with the input itself, which
suffices because every step consumes at least one character. -/
def rewriteStaticGo (path : String) : List Char → List Char → List Char
  | _, [] => []
  | [], s => s
  | _ :: fuel, c :: cs =>
    match tryStaticAt (c :: cs) with
    | some (p1, spec, cc, rest) =>
      p1 ++ (resolveModuleSpecifier path (String.mk spec)).data ++
        cc :: rewriteStaticGo path fuel rest
    | none => c :: rewriteStaticGo path fuel cs

/-- The static-import rewrite of src/utils.ts lines 66-69. -/
def rewriteStatic (path content : String) : String :=
  String.mk (rewriteStaticGo path content.data content.data)

/-- Attempt to match the dynamic-import pattern `import\(['"]...` at the
head of `s`; returns the specifier, closing quote and remainder. -/
def tryDynamicAt (s : List Char) : Option (List Char × Char × List Char) :=
  if startsWithL "import(".data s then
    match s.drop 7 with
    | [] => none
    | qc :: t2 =>
      if isQuote qc then
        match t2 with
        | [] => none
        | d :: _ =>
          if isDotSlash d then
            let spec := t2.takeWhile (fun c => !(isQuote c))
            if 2 ≤ spec.length then
              match t2.drop spec.length with
              | [] => none
              | cc :: rest =>
                match rest with
                | ')' :: rest2 => some (spec, cc, rest2)
                | _ => none
            else none
          else none
      else none
  else none

/-- One global-replace pass of the dynamic-import pattern (fuel-bounded
scan, fuel instantiated with the input itself). -/
def rewriteDynamicGo (path : String) : List Char → List Char → List Char
  | _, [] => []
  | [], s => s
  | _ :: fuel, c :: cs =>
    match tryDynamicAt (c :: cs) with
    | some (spec, cc, rest) =>
      (c :: cs).take 8 ++ (resolveModuleSpecifier path (String.mk spec)).data ++
        cc :: ')' :: rewriteDynamicGo path fuel rest
    | none => c :: rewriteDynamicGo path fuel cs

/-- The dynamic-import rewrite of src/utils.ts lines 71-74. -/
def rewriteDynamic (path content : String) : String :=
  String.mk (rewriteDynamicGo path content.data content.data)

/-- Test of a path against the source-extension pattern
`\.(js|jsx|ts|tsx)$` used throughout src/utils.ts. -/
def hasJsExt (p : String) : Bool :=
  strEndsWith p ".js" || strEndsWith p ".jsx" || strEndsWith p ".ts" || strEndsWith p ".tsx"

/-- The per-file import-rewriting stage (src/utils.ts lines 62-79):
JavaScript/TypeScript files get the static then the dynamic rewrite,
every other file is passed through unmodified. -/
def processFile (path content : String) : String :=
  if hasJsExt path then rewriteDynamic path (rewriteStatic path content)
  else content


/-! ## The entry-script tag rewrite (src/utils.ts lines 128-134)

Pattern: `<script\s+type=["']module["']\s+src=["']([^"']+)["']><\/script>` (global).
-/

/-- Attempt to match the entry-script pattern at the head of `s`;
returns the captured `src` attribute value and the remainder after the match. -/
def tryModuleScriptAt (s : List Char) : Option (List Char × List Char) :=
  if startsWithL "<script".data s then
    let s1 := s.drop 7
    let w1 := countWhile isJsSpace s1
    if w1 = 0 then none
    else
      let s2 := s1.drop w1
      if startsWithL "type=".data s2 then
        match s2.drop 5 with
        | [] => none
        | q1 :: s3 =>
          if isQuote q1 && startsWithL "module".data s3 then
            match s3.drop 6 with
            | [] => none
            | q2 :: s4 =>
              if isQuote q2 then
                let w2 := countWhile isJsSpace s4
                if w2 = 0 then none
                else
                  let s5 := s4.drop w2
                  if startsWithL "src=".data s5 then
                    match s5.drop 4 with
                    | [] => none
                    | q3 :: s6 =>
                      if isQuote q3 then
                        let src := s6.takeWhile (fun c => !(isQuote c))
                        if 1 ≤ src.length then
                          match s6.drop src.length with
                          | [] => none
                          | _ :: s7 =>
                            if startsWithL "></script>".data s7 then some (src, s7.drop 10)
                            else none
                        else none
                      else none
                  else none
              else none
          else none
      else none
  else none

/-- The inline module script replacing a matched entry-script tag. -/
def moduleScriptReplacement (src : List Char) : List Char :=
  ("<script type=\"module\">import \"" ++
    resolveModuleSpecifier "index.html" (String.mk src) ++ "\"</script>").data

/-- Global replace of the entry-script pattern (fuel-bounded scan, fuel
instantiated with the input itself). -/
def rewriteModuleScriptsGo : List Char → List Char → List Char
  | _, [] => []
  | [], s => s
  | _ :: fuel, c :: cs =>
    match tryModuleScriptAt (c :: cs) with
    | some (src, rest) => moduleScriptReplacement src ++ rewriteModuleScriptsGo fuel rest
    | none => c :: rewriteModuleScriptsGo fuel cs

/-- The entry-script rewrite applied to the entry document. -/
def rewriteModuleScriptTags (doc : String) : String :=
  String.mk (rewriteModuleScriptsGo doc.data doc.data)

/-! ## The virtual file system and the import map -/

/-- A virtual-file-system record: the ProjectFile shape constructed in
src/App.tsx (`name`, `language`, raw `content`). -/
structure FileRec where
  name : String
  language : String
  content : String
deriving DecidableEq

/-- The virtual file system: a path-keyed JS object, modelled as its
insertion-ordered entry list (keys unique). -/
abbrev FileSystem := List (String × FileRec)

/-- JS object lookup (first matching key). -/
def alGet {α : Type} (m : List (String × α)) (k : String) : Option α :=
  match m with
  | [] => none
  | kv :: rest => if kv.1 == k then some kv.2 else alGet rest k

/-- JS object key assignment: updates the value in place when the key is
already present, appends the binding otherwise. -/
def alSet {α : Type} (m : List (String × α)) (k : String) (v : α) : List (String × α) :=
  if m.any (fun kv => kv.1 == k) then m.map (fun kv => if kv.1 == k then (k, v) else kv)
  else m ++ [(k, v)]

/-- The processed-file map: every file run through the import-rewriting
stage (src/utils.ts lines 60-79). -/
def processedOf (files : FileSystem) : List (String × String) :=
  files.map (fun pf => (pf.1, processFile pf.1 pf.2.content))

/-- The data-URI module resource encoding one file content
(src/utils.ts lines 94-95). -/
def dataUriFor (content : String) : String :=
  "data:text/javascript;charset=utf-8," ++ encodeURIComponent content

/-- The fixed third-party CDN registry seeding the import map
(src/utils.ts lines 82-88). -/
def cdnImports : List (String × String) :=
  [("preact", "https://esm.sh/preact@10.19.6"),
   ("preact/hooks", "https://esm.sh/preact@10.19.6/hooks"),
   ("htm", "https://esm.sh/htm@3.1.1"),
   ("canvas-confetti", "https://esm.sh/canvas-confetti@1.9.2"),
   ("gsap", "https://esm.sh/gsap@3.12.5")]

/-- `path.replace(/^(\.\/|\/)/, '')`: strip one leading `./` or `/`. -/
def cleanPathOf (path : String) : String :=
  if strStartsWith path "./" then strDrop path 2
  else if strStartsWith path "/" then strDrop path 1
  else path

/-- `cleanPath.replace(/\.(js|jsx|ts|tsx)$/, '')`: strip a trailing
source extension. -/
def stripJsExt (p : String) : String :=
  if strEndsWith p ".jsx" then strDropRight p 4
  else if strEndsWith p ".tsx" then strDropRight p 4
  else if strEndsWith p ".js" then strDropRight p 3
  else if strEndsWith p ".ts" then strDropRight p 3
  else p

/-- Registration of one processed file in the import map
(src/utils.ts lines 90-109). -/
def addFileImports (m : List (String × String)) (path content : String) :
    List (String × String) :=
  if path == "index.html" || strEndsWith path ".css" then m
  else if hasJsExt path then
    let dataUri := dataUriFor content
    let cleanPath := cleanPathOf path
    let m1 := alSet m cleanPath dataUri
    let m2 := alSet m1 ("./" ++ cleanPath) dataUri
    let m3 := alSet m2 ("/" ++ cleanPath) dataUri
    let stripped := stripJsExt cleanPath
    if stripped != cleanPath then
      alSet (alSet (alSet m3 stripped dataUri) ("./" ++ stripped) dataUri)
        ("/" ++ stripped) dataUri
    else m3
  else m

/-- The keys that registering `path` writes into the import map. -/
def fileAliasKeys (path : String) : List String :=
  if path == "index.html" || strEndsWith path ".css" then []
  else if hasJsExt path then
    let c := cleanPathOf path
    let s := stripJsExt c
    [c, "./" ++ c, "/" ++ c] ++ (if s != c then [s, "./" ++ s, "/" ++ s] else [])
  else []

/-- The synthesized import map over the processed files. -/
def buildImports (processed : List (String × String)) : List (String × String) :=
  processed.foldl (fun m pc => addFileImports m pc.1 pc.2) cdnImports

/-- The import map of a VFS snapshot. -/
def importsOf (files : FileSystem) : List (String × String) :=
  buildImports (processedOf files)

/-- The import-map script block (src/utils.ts lines 111-117), with the
exact template-literal whitespace. -/
def importMapScriptFor (imports : List (String × String)) : String :=
  "\n    <script type=\"importmap\">\n      \x7b\n        \"imports\": " ++
  jsonStringifyMap imports ++ "\n      \x7d\n    </script>\n  "

/-- Concatenation of every CSS file content, each preceded by an origin
comment (src/utils.ts lines 119-124). -/
def cssContentOf (files : FileSystem) : String :=
  files.foldl (fun acc pf =>
    if strEndsWith pf.1 ".css" then
      acc ++ "\n/* " ++ pf.1 ++ " */\n" ++ pf.2.content ++ "\n"
    else acc) ""

/-- The style block: empty when there is no CSS content (src/utils.ts
line 125). -/
def styleTagOf (files : FileSystem) : String :=
  let c := cssContentOf files
  if c == "" then "" else "<style>" ++ c ++ "</style>"

/-- The literal tag searched for by the head injection. -/
def headTag : String := "<head>"

/-- The literal tag searched for by the body injection. -/
def bodyTag : String := "<body>"

/-- The fixed error-instrumentation script (src/utils.ts lines 143-153). -/
def errorScript : String :=
  "\n    <script>\n      window.onerror = function(msg, url, line, col, error) \x7b\n        console.error(\x27Runtime Error:\x27, msg, \x27\\nLine:\x27, line, \x27\\nFile:\x27, url);\n        const banner = document.createElement(\x27div\x27);\n        banner.style.cssText = \x27position:fixed;top:0;left:0;right:0;background:rgba(220,38,38,0.9);color:white;padding:8px;font-family:sans-serif;font-size:12px;z-index:9999;pointer-events:none;\x27;\n        banner.textContent = \x27Runtime Error: \x27 + msg;\n        document.body.appendChild(banner);\n      \x7d;\n    </script>\n  "

/-- Head injection (src/utils.ts lines 136-140): insert the blocks after
the first literal head tag, else prepend them to the whole document. -/
def injectHeadBlocks (doc blocks : String) : String :=
  if containsSub headTag doc then replaceFirstStr doc headTag (headTag ++ blocks)
  else blocks ++ doc

/-- Body injection (src/utils.ts lines 155-159): insert the error script
after the first literal body tag, else append it to the document end. -/
def injectBodyScript (doc : String) : String :=
  if containsSub bodyTag doc then replaceFirstStr doc bodyTag (bodyTag ++ errorScript)
  else doc ++ errorScript

/-- The golden-shell entry document (src/utils.ts, INITIAL_FILES,
content of index.html). -/
def shellHtml : String :=
  "<!DOCTYPE html>\n<html lang=\"en\">\n<head>\n    <meta charset=\"UTF-8\">\n    <meta name=\"viewport\" content=\"width=device-width, initial-scale=1.0, maximum-scale=1.0, user-scalable=no\">\n    <title>EduSpark Game Shell</title>\n    <style>\n        /* GOLDEN SHELL STYLES - DO NOT EDIT */\n        body, html \x7b \n            margin: 0; padding: 0; width: 100%; height: 100%; \n            background: #1a1a1a; color: #fff; \n            overflow: hidden; font-family: \x27Inter\x27, sans-serif;\n            display: flex; align-items: center; justify-content: center;\n        \x7d\n        \n        /* The Scalable Stage Container */\n        #game-container \x7b\n            position: relative;\n            width: 800px;\n            height: 600px;\n            background: #000;\n            box-shadow: 0 0 50px rgba(0,0,0,0.5);\n            overflow: hidden;\n        \x7d\n\n        /* The Mount Point for Aether */\n        #game-stage \x7b\n            width: 100%;\n            height: 100%;\n            position: relative;\n        \x7d\n\n        /* Scale logic */\n        @media (max-width: 840px), (max-height: 640px) \x7b\n            #game-container \x7b\n                transform-origin: center center;\n                transform: scale(min(calc(100vw / 800), calc(100vh / 600)));\n            \x7d\n        \x7d\n    </style>\n    <script>\n        // BRIDGE API MOCK\n        window.gameAPI = \x7b\n            submitFinalScore: function(data) \x7b\n                console.log(\"🏆 [BRIDGE] Game Completed:\", data);\n                const banner = document.createElement(\x27div\x27);\n                banner.style.cssText = \x27position:absolute;top:50%;left:50%;transform:translate(-50%, -50%);background:#10b981;color:white;padding:20px;border-radius:12px;font-weight:bold;text-align:center;box-shadow:0 10px 25px rgba(0,0,0,0.5);z-index:9999;\x27;\n                banner.innerHTML = \x27<h1>Great Job!</h1><p>Score Submitted: \x27 + (data.score.raw || 0) + \x27</p>\x27;\n                document.getElementById(\x27game-stage\x27).appendChild(banner);\n            \x7d\n        \x7d;\n    </script>\n</head>\n<body>\n    <div id=\"game-container\">\n        <div id=\"game-stage\">\n            <!-- Aether mounts the app here -->\n            <div style=\"height:100%; display:flex; flex-direction:column; align-items:center; justify-content:center; color:#666;\">\n                <h2>Waiting for Aether...</h2>\n                <p>Game content will load here.</p>\n            </div>\n        </div>\n    </div>\n    \n    <!-- Main Entry Point -->\n    <script type=\"module\" src=\"./src/main.js\"></script>\n</body>\n</html>"

/-- The initial virtual file system (src/utils.ts lines 164-237). -/
def initialFiles : FileSystem :=
  [("index.html", ⟨"index.html", "html", shellHtml⟩)]

/-- The entry document chosen by the build: the index.html content, or
the built-in shell when it is absent or empty (src/utils.ts lines 52-58). -/
def entryHtmlOf (files : FileSystem) : String :=
  let c := ((alGet files "index.html").map FileRec.content).getD ""
  if c == "" then shellHtml else c

/-- The preview builder `buildPreviewContent` (src/utils.ts lines 52-162):
chooses the entry document, rewrites per-file imports, synthesizes
the import map, concatenates CSS, rewrites the entry-script tag, and injects
the blocks into head and body. -/
def buildPreviewContent (files : FileSystem) : String :=
  let indexHtml := entryHtmlOf files
  let imports := importsOf files
  let importMapScript := importMapScriptFor imports
  let styleTag := styleTagOf files
  let indexHtml2 := rewriteModuleScriptTags indexHtml
  injectBodyScript (injectHeadBlocks indexHtml2 (importMapScript ++ styleTag))

/-! ## The VFS-mutating operations of src/App.tsx -/

/-- Language derivation from a filename extension (src/utils.ts lines 13-25). -/
def getLanguageFromFilename (filename : String) : String :=
  let ext := (((splitOnCh '.' filename.data).map String.mk).getLast?).getD ""
  if ext == "js" then "javascript"
  else if ext == "jsx" then "javascript"
  else if ext == "ts" then "typescript"
  else if ext == "tsx" then "typescript"
  else if ext == "html" then "html"
  else if ext == "css" then "css"
  else if ext == "json" then "json"
  else "plaintext"

/-- The rejection message returned for a write to index.html
(src/App.tsx line 163). -/
def createFileErrorMsg : String :=
  "Error: index.html is READ-ONLY. You cannot modify the Golden Shell."

/-- The `create_file` branch of `executeTool` (src/App.tsx lines 160-175):
returns the updated file system and the message reported to the caller. -/
def executeCreateFile (files : FileSystem) (path content : String) :
    FileSystem × String :=
  if path == "index.html" then (files, createFileErrorMsg)
  else
    (alSet files path ⟨path, getLanguageFromFilename path, content⟩,
     "File \x27" ++ path ++ "\x27 created successfully.")

/-- The editor change handler `handleFileChange` (src/App.tsx lines
310-320); the guard is the source's truthiness test, so a null or empty
selection is a no-op. -/
def handleFileChange (files : FileSystem) (selectedFile : Option String)
    (newContent : String) : FileSystem :=
  match selectedFile with
  | none => files
  | some f =>
    if f != "" && f != "index.html" then
      match alGet files f with
      | some r => alSet files f { r with content := newContent }
      | none => alSet files f ⟨"", "", newContent⟩
    else files

/-- What `handleFileChange` reports back to its caller: the source
handler (src/App.tsx lines 310-320) has return type void and touches no
message state, so on every input — the rejected index.html edit
included — it reports nothing. -/
def handleFileChangeReport (files : FileSystem) (selectedFile : Option String)
    (newContent : String) : Option String :=
  none


/-- The text before the first occurrence of `needle` (the whole string
when absent). -/
def splitPre (needle hay : String) : String :=
  match splitFirstL needle.data hay.data with
  | some (a, _) => String.mk a
  | none => hay

/-- The text after the first occurrence of `needle` (empty when absent). -/
def splitPost (needle hay : String) : String :=
  match splitFirstL needle.data hay.data with
  | some (_, b) => String.mk b
  | none => ""

/-- The replacement text actually spliced in by `replaceFirstStr`: the
replacement string after GetSubstitution against the first occurrence of
`needle` in `hay`. -/
def substitutedRepl (repl needle hay : String) : String :=
  String.mk (getSubstitution needle.data (splitPre needle hay).data
    (splitPost needle hay).data repl.data)

/-! ## The end-to-end scenario snapshot of the specification (section 8) -/

/-- The two-file scenario snapshot: the golden shell and a src/main.js
file importing a bare specifier. -/
def fsScenario : FileSystem :=
  [("index.html", FileRec.mk "index.html" "html" shellHtml),
   ("src/main.js", FileRec.mk "src/main.js" "javascript"
     "import \x7bh\x7d from \x27preact\x27; console.log(\x27hi\x27)")]

/-- The scenario document after the entry-script rewrite and the head
injection, right before the body injection. -/
def scenarioHeadDoc : String :=
  injectHeadBlocks (rewriteModuleScriptTags (entryHtmlOf fsScenario))
    (importMapScriptFor (importsOf fsScenario) ++ styleTagOf fsScenario)

/-! ## Lemmas about the string-search primitives -/

theorem strExt : ∀ {a b : String}, a.data = b.data → a = b := by
  intro a b h
  cases a
  cases b
  exact congrArg String.mk h

theorem startsWithL_decomp : ∀ (n l : List Char), startsWithL n l = true →
    l = n ++ l.drop n.length := by
  intro n
  induction n with
  | nil => intro l _; simp
  | cons p ps ih =>
    intro l h
    cases l with
    | nil => simp [startsWithL] at h
    | cons c cs =>
      simp only [startsWithL, Bool.and_eq_true, decide_eq_true_eq] at h
      obtain ⟨h1, h2⟩ := h
      subst h1
      have h3 := ih cs h2
      simp only [List.length_cons, List.drop_succ_cons, List.cons_append]
      exact congrArg (p :: ·) h3

theorem startsWithL_append_of (n x y : List Char) (h : startsWithL n x = true) :
    startsWithL n (x ++ y) = true := by
  induction n generalizing x with
  | nil => simp [startsWithL]
  | cons p ps ih =>
    cases x with
    | nil => simp [startsWithL] at h
    | cons c cs =>
      simp only [startsWithL, Bool.and_eq_true, decide_eq_true_eq] at h ⊢
      exact ⟨h.1, ih cs h.2⟩

theorem startsWithL_self (n : List Char) : startsWithL n n = true := by
  induction n with
  | nil => rfl
  | cons p ps ih => simp [startsWithL, ih]

theorem splitFirstAux_acc (n : List Char) : ∀ (t racc : List Char),
    splitFirstAux n racc t =
      (splitFirstAux n [] t).map (fun p => (racc.reverse ++ p.1, p.2)) := by
  intro t
  induction t with
  | nil =>
    intro racc
    by_cases h : n.isEmpty <;> simp [splitFirstAux, h]
  | cons c cs ih =>
    intro racc
    by_cases h : startsWithL n (c :: cs) = true
    · simp [splitFirstAux, h]
    · simp only [splitFirstAux, h, Bool.false_eq_true, if_false]
      rw [ih (c :: racc), ih [c]]
      cases splitFirstAux n [] cs with
      | none => simp
      | some p => simp [List.append_assoc]

theorem splitFirstL_cons_pos {n : List Char} {c : Char} {cs : List Char}
    (hw : startsWithL n (c :: cs) = true) :
    splitFirstL n (c :: cs) = some ([], (c :: cs).drop n.length) := by
  simp [splitFirstL, splitFirstAux, hw]

theorem splitFirstL_cons_neg {n : List Char} {c : Char} {cs : List Char}
    (hw : startsWithL n (c :: cs) = false) :
    splitFirstL n (c :: cs) = (splitFirstL n cs).map (fun p => (c :: p.1, p.2)) := by
  show splitFirstAux n [] (c :: cs) = _
  simp only [splitFirstAux, hw, Bool.false_eq_true, if_false]
  rw [splitFirstAux_acc n cs [c]]
  show (splitFirstL n cs).map _ = (splitFirstL n cs).map _
  cases splitFirstL n cs with
  | none => rfl
  | some p => rfl

theorem splitFirstL_cons_neg_none {n : List Char} {c : Char} {cs : List Char}
    (hw : startsWithL n (c :: cs) = false) (h0 : splitFirstL n cs = none) :
    splitFirstL n (c :: cs) = none := by
  rw [splitFirstL_cons_neg hw, h0]
  rfl

theorem splitFirstL_cons_neg_some {n a b : List Char} {c : Char} {cs : List Char}
    (hw : startsWithL n (c :: cs) = false) (h0 : splitFirstL n cs = some (a, b)) :
    splitFirstL n (c :: cs) = some (c :: a, b) := by
  rw [splitFirstL_cons_neg hw, h0]
  rfl

theorem splitFirstL_decomp (n : List Char) : ∀ (h a b : List Char),
    splitFirstL n h = some (a, b) → h = a ++ n ++ b := by
  intro h
  induction h with
  | nil =>
    intro a b hs
    by_cases he : n.isEmpty
    · have hn : n = [] := by cases n <;> simp_all [List.isEmpty]
      simp [splitFirstL, splitFirstAux, he] at hs
      obtain ⟨ha, hb⟩ := hs
      subst hn
      simp [ha, hb]
    · simp [splitFirstL, splitFirstAux, he] at hs
  | cons c cs ih =>
    intro a b hs
    by_cases hw : startsWithL n (c :: cs) = true
    · rw [splitFirstL_cons_pos hw] at hs
      have h1 := Option.some.inj hs
      have ha : ([] : List Char) = a := congrArg Prod.fst h1
      have hb : (c :: cs).drop n.length = b := congrArg Prod.snd h1
      subst ha
      subst hb
      simpa using startsWithL_decomp n (c :: cs) hw
    · rw [splitFirstL_cons_neg (Bool.not_eq_true _ ▸ hw)] at hs
      cases hsp : splitFirstL n cs with
      | none => rw [hsp] at hs; simp at hs
      | some p =>
        rw [hsp] at hs
        have h1 := Option.some.inj hs
        have ha : c :: p.1 = a := congrArg Prod.fst h1
        have hb : p.2 = b := congrArg Prod.snd h1
        subst hb
        have hrec := ih p.1 p.2 hsp
        rw [← ha]
        simp [hrec, List.append_assoc]

theorem splitFirstL_prefix_clean (n : List Char) (hn : n ≠ []) :
    ∀ (h a b : List Char), splitFirstL n h = some (a, b) → splitFirstL n a = none := by
  intro h
  induction h with
  | nil =>
    intro a b hs
    have he : n.isEmpty = false := by cases n <;> simp_all
    simp [splitFirstL, splitFirstAux, he] at hs
  | cons c cs ih =>
    intro a b hs
    by_cases hw : startsWithL n (c :: cs) = true
    · rw [splitFirstL_cons_pos hw] at hs
      have ha : ([] : List Char) = a := congrArg Prod.fst (Option.some.inj hs)
      have he : n.isEmpty = false := by cases n <;> simp_all
      simp [← ha, splitFirstL, splitFirstAux, he]
    · rw [splitFirstL_cons_neg (Bool.not_eq_true _ ▸ hw)] at hs
      cases hsp : splitFirstL n cs with
      | none => rw [hsp] at hs; simp at hs
      | some p =>
        rw [hsp] at hs
        have ha : c :: p.1 = a := congrArg Prod.fst (Option.some.inj hs)
        have hb : p.2 = b := congrArg Prod.snd (Option.some.inj hs)
        have hprev : splitFirstL n p.1 = none := ih p.1 p.2 hsp
        have hdec := splitFirstL_decomp n cs p.1 p.2 hsp
        have hw2 : startsWithL n (c :: p.1) = false := by
          by_contra hcon
          rw [Bool.not_eq_false] at hcon
          have hext : startsWithL n ((c :: p.1) ++ (n ++ p.2)) = true :=
            startsWithL_append_of n (c :: p.1) (n ++ p.2) hcon
          rw [show (c :: p.1) ++ (n ++ p.2) = c :: cs by
            simp [hdec, List.append_assoc]] at hext
          simp [hext] at hw
        rw [← ha, splitFirstL_cons_neg hw2, hprev]
        rfl

theorem splitFirstL_isSome_append (n b : List Char)
    (hb : (splitFirstL n b).isSome = true) :
    ∀ a : List Char, (splitFirstL n (a ++ b)).isSome = true := by
  intro a
  induction a with
  | nil => simpa using hb
  | cons c cs ih =>
    by_cases hw : startsWithL n (c :: (cs ++ b)) = true
    · simp [List.cons_append, splitFirstL_cons_pos hw]
    · rw [List.cons_append, splitFirstL_cons_neg (Bool.not_eq_true _ ▸ hw)]
      simp only [List.cons_append] at ih
      cases hsp : splitFirstL n (cs ++ b) with
      | none => rw [hsp] at ih; simp at ih
      | some p => simp

theorem splitFirstL_isSome_of_startsWith (n h : List Char)
    (hw : startsWithL n h = true) : (splitFirstL n h).isSome = true := by
  cases h with
  | nil =>
    have : n = [] := by cases n <;> simp_all [startsWithL]
    simp [this, splitFirstL, splitFirstAux]
  | cons c cs => simp [splitFirstL_cons_pos hw]

theorem containsSub_append_right (n b : String) (a : String)
    (hb : containsSub n b = true) : containsSub n (a ++ b) = true := by
  have hd : (a ++ b).data = a.data ++ b.data := rfl
  simp only [containsSub, hd]
  exact splitFirstL_isSome_append n.data b.data (by simpa [containsSub] using hb) a.data

theorem strAppend_data (a b : String) : (a ++ b).data = a.data ++ b.data := rfl

theorem replaceFirstStr_eq (hay needle repl : String)
    (hc : containsSub needle hay = true) :
    replaceFirstStr hay needle repl =
      splitPre needle hay ++ substitutedRepl repl needle hay ++ splitPost needle hay ∧
    hay = splitPre needle hay ++ needle ++ splitPost needle hay := by
  simp only [containsSub] at hc
  cases hsp : splitFirstL needle.data hay.data with
  | none => rw [hsp] at hc; simp at hc
  | some p =>
    have hdec := splitFirstL_decomp needle.data hay.data p.1 p.2 (by rw [hsp])
    constructor
    · simp only [replaceFirstStr, substitutedRepl, splitPre, splitPost, hsp]
      apply strExt
      rw [strAppend_data, strAppend_data]
    · simp only [splitPre, splitPost, hsp]
      apply strExt
      rw [strAppend_data, strAppend_data]
      exact hdec

theorem getSubstitution_noDollar (matched pre post : List Char) :
    ∀ r : List Char, r.any (fun c => c = '$') = false →
      getSubstitution matched pre post r = r := by
  intro r
  induction r with
  | nil => intro _; rfl
  | cons c rest ih =>
    intro h
    simp only [List.any_cons, Bool.or_eq_false_iff, decide_eq_false_iff_not] at h
    have hstep : getSubstitution matched pre post (c :: rest) =
        c :: getSubstitution matched pre post rest := by
      rw [getSubstitution.eq_def]
      dsimp only
      rw [if_neg h.1]
    rw [hstep, ih (by simpa using h.2)]

theorem noDollar_append (a b : String) (ha : noDollar a = true)
    (hb : noDollar b = true) : noDollar (a ++ b) = true := by
  simp only [noDollar, Bool.not_eq_eq_eq_not, Bool.not_true, strAppend_data,
    List.any_append, Bool.or_eq_false_iff] at *
  exact ⟨ha, hb⟩

theorem substitutedRepl_noDollar (repl needle hay : String)
    (h : noDollar repl = true) : substitutedRepl repl needle hay = repl := by
  have hr : repl.data.any (fun c => c = '$') = false := by
    simpa only [noDollar, Bool.not_eq_eq_eq_not, Bool.not_true] using h
  apply strExt
  exact getSubstitution_noDollar _ _ _ repl.data hr

theorem replaceFirstStr_eq_noDollar (hay needle repl : String)
    (hc : containsSub needle hay = true) (hd : noDollar repl = true) :
    replaceFirstStr hay needle repl =
      splitPre needle hay ++ repl ++ splitPost needle hay ∧
    hay = splitPre needle hay ++ needle ++ splitPost needle hay := by
  obtain ⟨h1, h2⟩ := replaceFirstStr_eq hay needle repl hc
  rw [substitutedRepl_noDollar repl needle hay hd] at h1
  exact ⟨h1, h2⟩


/-! ## Claim C1: the specifier resolver -/

theorem foldl_applySegments : ∀ (parts dir : List String),
    parts.foldl (fun acc part =>
      if part = "." then acc
      else if part = ".." then acc.dropLast
      else acc ++ [part]) dir = applySegments dir parts := by
  intro parts
  induction parts with
  | nil => intro dir; simp [applySegments]
  | cons seg rest ih =>
    intro dir
    by_cases h1 : seg = "."
    · simp only [List.foldl_cons, applySegments, h1, if_pos]
      exact ih dir
    · by_cases h2 : seg = ".."
      · simp only [List.foldl_cons, applySegments, h1, h2, if_neg, if_pos,
          ite_false, ite_true]
        exact ih dir.dropLast
      · simp only [List.foldl_cons, applySegments, h1, h2, ite_false]
        exact ih (dir ++ [seg])

/-- C1: the resolver agrees with the specification's segment-by-segment
description on every input, and satisfies the five quoted examples:
a bare specifier is returned unchanged, a leading slash is stripped, and
relative specifiers are resolved against the source directory with `.` a
no-op and `..` popping (never underflowing). -/
theorem resolver_meets_spec :
    (∀ sourcePath specifier : String,
      resolveModuleSpecifier sourcePath specifier = resolveSpecified sourcePath specifier) ∧
    (∀ sourcePath specifier : String,
      strStartsWith specifier "." = false → strStartsWith specifier "/" = false →
      resolveModuleSpecifier sourcePath specifier = specifier) ∧
    (∀ sourcePath specifier : String, strStartsWith specifier "/" = true →
      resolveModuleSpecifier sourcePath specifier = strDrop specifier 1) ∧
    resolveModuleSpecifier "src/a/b.js" "./c.js" = "src/a/c.js" ∧
    resolveModuleSpecifier "src/a/b.js" "../c.js" = "src/c.js" ∧
    resolveModuleSpecifier "x.js" "../../y.js" = "y.js" ∧
    resolveModuleSpecifier "x.js" "/z.js" = "z.js" ∧
    resolveModuleSpecifier "x.js" "preact" = "preact" := by
  refine ⟨?_, ?_, ?_, by decide, by decide, by decide, by decide, by decide⟩
  · intro sourcePath specifier
    simp only [resolveModuleSpecifier, resolveSpecified]
    rw [foldl_applySegments]
  · intro sourcePath specifier h1 h2
    simp [resolveModuleSpecifier, h1, h2]
  · intro sourcePath specifier h1
    simp [resolveModuleSpecifier, h1]

/-- Witness instantiating the hypothesis-bearing clauses of C1. -/
theorem resolver_meets_spec_witness :
    strStartsWith "preact" "." = false ∧ strStartsWith "preact" "/" = false ∧
    resolveModuleSpecifier "x.js" "preact" = "preact" ∧
    strStartsWith "/z.js" "/" = true ∧
    resolveModuleSpecifier "x.js" "/z.js" = strDrop "/z.js" 1 :=
  ⟨by decide, by decide,
   resolver_meets_spec.2.1 "x.js" "preact" (by decide) (by decide),
   by decide,
   resolver_meets_spec.2.2.1 "x.js" "/z.js" (by decide)⟩

/-! ## Claim C9: non-JS/TS files pass through the rewriting stage unchanged -/

/-- C9: the import-rewriting stage leaves every file without a
JavaScript/TypeScript extension untouched, character for character. -/
theorem processFile_passthrough (path content : String)
    (h : hasJsExt path = false) : processFile path content = content := by
  simp [processFile, h]

/-- Witness for C9 at a CSS file. -/
theorem processFile_passthrough_witness :
    hasJsExt "styles.css" = false ∧
    processFile "styles.css" "body \x7b color: red; \x7d" = "body \x7b color: red; \x7d" :=
  ⟨by decide, processFile_passthrough "styles.css" "body \x7b color: red; \x7d" (by decide)⟩

/-! ## Claim C4: index.html is immutable -/

/-- C4 counterexample: on the editor path the rejected index.html edit
is silent — the handler leaves the file system unchanged but reports
nothing, unlike the create-file tool call, which returns the rejection
message. -/
theorem editor_change_reports_nothing :
    handleFileChange [] (some "index.html") "z" = [] ∧
    handleFileChangeReport [] (some "index.html") "z" = none ∧
    (executeCreateFile [] "index.html" "z").2 = createFileErrorMsg ∧
    some createFileErrorMsg ≠ (none : Option String) :=
  ⟨rfl, rfl, rfl, by decide⟩

/-- C4 (amended): a create-file call on index.html leaves the file
system unchanged and reports the rejection message to the caller; the
editor change handler with index.html selected likewise leaves every
entry unchanged, but silently — it reports nothing. -/
theorem indexHtml_immutable (fs : FileSystem) (content : String) :
    executeCreateFile fs "index.html" content = (fs, createFileErrorMsg) ∧
    handleFileChange fs (some "index.html") content = fs ∧
    handleFileChangeReport fs (some "index.html") content = none := by
  refine ⟨?_, ?_, rfl⟩
  · simp [executeCreateFile]
  · simp [handleFileChange]

/-! ## Claim C7: the build is a pure function of the snapshot -/

/-- C7: on equal snapshots the build returns identical strings and the
synthesized import map has identical entries; there is no hidden state. -/
theorem buildPreview_deterministic (fs1 fs2 : FileSystem) (h : fs1 = fs2) :
    buildPreviewContent fs1 = buildPreviewContent fs2 ∧
    importsOf fs1 = importsOf fs2 := by
  subst h
  exact ⟨rfl, rfl⟩

/-- Witness for C7 at a concrete snapshot. -/
theorem buildPreview_deterministic_witness :
    ([("a.js", FileRec.mk "a.js" "javascript" "x()")] : FileSystem) =
      [("a.js", FileRec.mk "a.js" "javascript" "x()")] ∧
    buildPreviewContent [("a.js", FileRec.mk "a.js" "javascript" "x()")] =
      buildPreviewContent [("a.js", FileRec.mk "a.js" "javascript" "x()")] ∧
    importsOf [("a.js", FileRec.mk "a.js" "javascript" "x()")] =
      importsOf [("a.js", FileRec.mk "a.js" "javascript" "x()")] :=
  ⟨rfl,
   (buildPreview_deterministic _ _ rfl).1,
   (buildPreview_deterministic _ _ rfl).2⟩


/-! ## Claim C2: import-map alias registration -/

theorem alGet_map_set_of_any {α : Type} (k : String) (v : α) :
    ∀ m : List (String × α), m.any (fun kv => kv.1 == k) = true →
      alGet (m.map (fun kv => if kv.1 == k then (k, v) else kv)) k = some v := by
  intro m
  induction m with
  | nil => intro h; simp at h
  | cons kv rest ih =>
    intro h
    by_cases hk : kv.1 == k
    · simp [alGet, hk]
    · simp only [List.any_cons, hk, Bool.false_or] at h
      simp only [List.map_cons, hk, if_neg, Bool.false_eq_true, ite_false]
      simp only [alGet, hk, Bool.false_eq_true, if_false]
      exact ih h

theorem alGet_append_single {α : Type} (k : String) (v : α) :
    ∀ m : List (String × α), m.any (fun kv => kv.1 == k) = false →
      alGet (m ++ [(k, v)]) k = some v := by
  intro m
  induction m with
  | nil => simp [alGet]
  | cons kv rest ih =>
    intro h
    simp only [List.any_cons, Bool.or_eq_false_iff] at h
    simp only [List.cons_append, alGet, h.1, Bool.false_eq_true, if_false]
    exact ih h.2

theorem alGet_alSet_self {α : Type} (m : List (String × α)) (k : String) (v : α) :
    alGet (alSet m k v) k = some v := by
  by_cases h : m.any (fun kv => kv.1 == k) = true
  · simp only [alSet, h, if_pos]
    exact alGet_map_set_of_any k v m h
  · rw [Bool.not_eq_true] at h
    simp only [alSet, h, Bool.false_eq_true, if_false]
    exact alGet_append_single k v m h

theorem alGet_map_set_ne {α : Type} (k : String) (v : α) (k2 : String) (hne : k2 ≠ k) :
    ∀ m : List (String × α),
      alGet (m.map (fun kv => if kv.1 == k then (k, v) else kv)) k2 = alGet m k2 := by
  intro m
  induction m with
  | nil => rfl
  | cons kv rest ih =>
    by_cases hk : (kv.1 == k) = true
    · have h1 : (k == k2) = false := by
        simp only [beq_eq_false_iff_ne]
        exact fun hc => hne hc.symm
      have h2 : (kv.1 == k2) = false := by
        simp only [beq_eq_false_iff_ne]
        rw [show kv.1 = k from by simpa using hk]
        exact fun hc => hne hc.symm
      simp only [List.map_cons, hk, if_pos, alGet, h1, h2, Bool.false_eq_true,
        if_false]
      exact ih
    · rw [Bool.not_eq_true] at hk
      simp only [List.map_cons, hk, Bool.false_eq_true, if_false, alGet]
      by_cases hg : (kv.1 == k2) = true
      · simp [hg]
      · rw [Bool.not_eq_true] at hg
        simp only [hg, Bool.false_eq_true, if_false]
        exact ih

theorem alGet_append_single_ne {α : Type} (k : String) (v : α) (k2 : String)
    (hne : k2 ≠ k) :
    ∀ m : List (String × α), alGet (m ++ [(k, v)]) k2 = alGet m k2 := by
  intro m
  induction m with
  | nil =>
    have h1 : (k == k2) = false := by
      simp only [beq_eq_false_iff_ne]
      exact fun hc => hne hc.symm
    simp [alGet, h1]
  | cons kv rest ih =>
    simp only [List.cons_append, alGet]
    by_cases hg : (kv.1 == k2) = true
    · simp [hg]
    · rw [Bool.not_eq_true] at hg
      simp only [hg, Bool.false_eq_true, if_false]
      exact ih

theorem alGet_alSet_ne {α : Type} (m : List (String × α)) (k : String) (v : α)
    (k2 : String) (hne : k2 ≠ k) : alGet (alSet m k v) k2 = alGet m k2 := by
  by_cases h : m.any (fun kv => kv.1 == k) = true
  · simp only [alSet, h, if_pos]
    exact alGet_map_set_ne k v k2 hne m
  · rw [Bool.not_eq_true] at h
    simp only [alSet, h, Bool.false_eq_true, if_false]
    exact alGet_append_single_ne k v k2 hne m

theorem alGet_foldl_alSet_notmem {α : Type} (v : α) :
    ∀ (ks : List String) (m : List (String × α)) (k : String), ¬ k ∈ ks →
      alGet (ks.foldl (fun m2 k2 => alSet m2 k2 v) m) k = alGet m k := by
  intro ks
  induction ks with
  | nil => intro m k _; rfl
  | cons k1 rest ih =>
    intro m k hk
    simp only [List.mem_cons, not_or] at hk
    simp only [List.foldl_cons]
    rw [ih (alSet m k1 v) k hk.2]
    exact alGet_alSet_ne m k1 v k hk.1

theorem alGet_foldl_alSet_mem {α : Type} (v : α) :
    ∀ (ks : List String) (m : List (String × α)) (k : String), k ∈ ks →
      alGet (ks.foldl (fun m2 k2 => alSet m2 k2 v) m) k = some v := by
  intro ks
  induction ks with
  | nil => intro m k hk; simp at hk
  | cons k1 rest ih =>
    intro m k hk
    simp only [List.foldl_cons]
    by_cases hr : k ∈ rest
    · exact ih (alSet m k1 v) k hr
    · have hk1 : k = k1 := by
        rcases List.mem_cons.mp hk with h | h
        · exact h
        · exact absurd h hr
      subst hk1
      rw [alGet_foldl_alSet_notmem v rest (alSet m k v) k hr]
      exact alGet_alSet_self m k v

theorem addFileImports_eq_foldl (m : List (String × String)) (path content : String)
    (h1 : (path == "index.html" || strEndsWith path ".css") = false)
    (h2 : hasJsExt path = true) :
    addFileImports m path content =
      (fileAliasKeys path).foldl (fun m2 k => alSet m2 k (dataUriFor content)) m := by
  simp only [addFileImports, fileAliasKeys, h1, Bool.false_eq_true, if_false, h2,
    if_pos]
  by_cases hst : (stripJsExt (cleanPathOf path) != cleanPathOf path) = true
  · simp [hst]
  · rw [Bool.not_eq_true] at hst
    simp [hst]

theorem addFileImports_preserve (m : List (String × String)) (path content k : String)
    (h : ¬ k ∈ fileAliasKeys path) :
    alGet (addFileImports m path content) k = alGet m k := by
  by_cases h1 : (path == "index.html" || strEndsWith path ".css") = true
  · simp [addFileImports, h1]
  · rw [Bool.not_eq_true] at h1
    by_cases h2 : hasJsExt path = true
    · rw [addFileImports_eq_foldl m path content h1 h2]
      exact alGet_foldl_alSet_notmem _ _ m k h
    · rw [Bool.not_eq_true] at h2
      simp [addFileImports, h1, h2]

theorem buildImports_fold_preserve :
    ∀ (l : List (String × String)) (m : List (String × String)) (k : String),
      (∀ pc, pc ∈ l → ¬ k ∈ fileAliasKeys pc.1) →
      alGet (l.foldl (fun m2 pc => addFileImports m2 pc.1 pc.2) m) k = alGet m k := by
  intro l
  induction l with
  | nil => intro m k _; rfl
  | cons pc rest ih =>
    intro m k hp
    simp only [List.foldl_cons]
    rw [ih _ k (fun pc2 hm => hp pc2 (List.mem_cons_of_mem pc hm))]
    exact addFileImports_preserve m pc.1 pc.2 k (hp pc (List.mem_cons_self pc rest))

/-- C2 (amended): for a JavaScript/TypeScript file in the snapshot whose
alias keys are not also registered by any other file, the synthesized
map sends every one of its alias keys (the clean path, the clean
path prefixed with `./` and `/`, and, when the extension strips, the same
three extension-free forms) to the same encoded module resource: the data
URI of the file's rewritten content. -/
theorem importMap_alias_complete (fs : FileSystem) (path : String) (file : FileRec)
    (hmem : (path, file) ∈ fs)
    (hnodup : (fs.map Prod.fst).Nodup)
    (hidx : (path == "index.html" || strEndsWith path ".css") = false)
    (hjs : hasJsExt path = true)
    (hdisj : ∀ p f2, (p, f2) ∈ fs → p ≠ path →
      ∀ k2, k2 ∈ fileAliasKeys p → ¬ k2 ∈ fileAliasKeys path) :
    ∀ k, k ∈ fileAliasKeys path →
      alGet (importsOf fs) k = some (dataUriFor (processFile path file.content)) := by
  intro k hk
  obtain ⟨l1, l2, hfs⟩ := List.append_of_mem hmem
  subst hfs
  have hproc : processedOf (l1 ++ (path, file) :: l2) =
      processedOf l1 ++ (path, processFile path file.content) :: processedOf l2 := by
    simp [processedOf]
  rw [importsOf, hproc, buildImports, List.foldl_append, List.foldl_cons]
  have hpath_notin : ¬ path ∈ l2.map Prod.fst := by
    rw [List.map_append, List.map_cons] at hnodup
    have h2 := (List.nodup_append.mp hnodup).2.1
    exact (List.nodup_cons.mp h2).1
  rw [buildImports_fold_preserve (processedOf l2) _ k ?hdisj2]
  case hdisj2 =>
    intro pc hpc
    obtain ⟨orig, horig, hpc2⟩ := List.mem_map.mp hpc
    have hne : orig.1 ≠ path := by
      intro hc
      exact hpath_notin (hc ▸ List.mem_map_of_mem Prod.fst horig)
    intro hkp
    have : pc.1 = orig.1 := by rw [← hpc2]
    exact hdisj orig.1 orig.2
      (List.mem_append_right l1 (List.mem_cons_of_mem _ horig)) hne k (this ▸ hkp) hk
  rw [addFileImports_eq_foldl _ path _ hidx hjs]
  exact alGet_foldl_alSet_mem _ _ _ k hk

/-- C2 counterexample: with both src/main.js and src/main.ts present, the
six aliases of src/main.js do not all map to the same resource — the
stripped alias src/main is overwritten by the later file. -/
theorem importMap_alias_collision :
    alGet (importsOf [("src/main.js", FileRec.mk "src/main.js" "javascript" "a"),
        ("src/main.ts", FileRec.mk "src/main.ts" "typescript" "b")]) "src/main.js" =
      some "data:text/javascript;charset=utf-8,a" ∧
    alGet (importsOf [("src/main.js", FileRec.mk "src/main.js" "javascript" "a"),
        ("src/main.ts", FileRec.mk "src/main.ts" "typescript" "b")]) "src/main" =
      some "data:text/javascript;charset=utf-8,b" ∧
    ("data:text/javascript;charset=utf-8,a" : String) ≠
      "data:text/javascript;charset=utf-8,b" :=
  ⟨by decide, by decide, by decide⟩

/-- Witness for the amended C2 at a singleton snapshot holding
src/main.js: all six aliases are present and map to the same data URI. -/
theorem importMap_alias_complete_witness :
    fileAliasKeys "src/main.js" =
      ["src/main.js", "./src/main.js", "/src/main.js",
       "src/main", "./src/main", "/src/main"] ∧
    alGet (importsOf [("src/main.js", FileRec.mk "src/main.js" "javascript" "x()")])
        "src/main" =
      some (dataUriFor (processFile "src/main.js" "x()")) := by
  constructor
  · decide
  · exact importMap_alias_complete
      [("src/main.js", FileRec.mk "src/main.js" "javascript" "x()")]
      "src/main.js" (FileRec.mk "src/main.js" "javascript" "x()")
      (by simp) (by decide) (by decide) (by decide)
      (by
        intro p f2 hm hne
        have : p = "src/main.js" := congrArg Prod.fst (List.mem_singleton.mp hm)
        exact absurd this hne)
      "src/main" (by decide)


/-! ## Claim C5: totality and the missing-shell fallback -/

theorem addFileImports_indexHtml (m : List (String × String)) (content : String) :
    addFileImports m "index.html" content = m := by
  simp [addFileImports]

theorem strEndsWith_indexHtml_css : strEndsWith "index.html" ".css" = false := by
  decide

theorem buildImports_fold_mapset_idx (v : FileRec) :
    ∀ (fs : FileSystem) (m : List (String × String)),
      ((fs.map (fun kv => if kv.1 == "index.html" then ("index.html", v) else kv)).map
          (fun pf => (pf.1, processFile pf.1 pf.2.content))).foldl
        (fun m2 pc => addFileImports m2 pc.1 pc.2) m =
      (fs.map (fun pf => (pf.1, processFile pf.1 pf.2.content))).foldl
        (fun m2 pc => addFileImports m2 pc.1 pc.2) m := by
  intro fs
  induction fs with
  | nil => intro m; rfl
  | cons kv rest ih =>
    intro m
    by_cases hk : (kv.1 == "index.html") = true
    · have hk2 : kv.1 = "index.html" := by simpa using hk
      simp only [List.map_cons, List.foldl_cons, hk2]
      rw [if_pos (show ("index.html" == "index.html") = true from rfl)]
      rw [show (("index.html", v) : String × FileRec).1 = "index.html" from rfl]
      rw [addFileImports_indexHtml, addFileImports_indexHtml]
      exact ih m
    · rw [Bool.not_eq_true] at hk
      simp only [List.map_cons, hk, Bool.false_eq_true, if_false, List.foldl_cons]
      exact ih _

theorem importsOf_alSet_idx (fs : FileSystem) (v : FileRec) :
    importsOf (alSet fs "index.html" v) = importsOf fs := by
  by_cases h : fs.any (fun kv => kv.1 == "index.html") = true
  · simp only [importsOf, alSet, h, if_pos, processedOf, buildImports]
    exact buildImports_fold_mapset_idx v fs cdnImports
  · rw [Bool.not_eq_true] at h
    simp only [importsOf, alSet, h, Bool.false_eq_true, if_false, processedOf,
      buildImports, List.map_append, List.foldl_append]
    simp [addFileImports_indexHtml]

theorem cssContentOf_fold_mapset_idx (v : FileRec) :
    ∀ (fs : FileSystem) (acc : String),
      (fs.map (fun kv => if kv.1 == "index.html" then ("index.html", v) else kv)).foldl
        (fun a pf => if strEndsWith pf.1 ".css" then
          a ++ "\n/* " ++ pf.1 ++ " */\n" ++ pf.2.content ++ "\n" else a) acc =
      fs.foldl (fun a pf => if strEndsWith pf.1 ".css" then
          a ++ "\n/* " ++ pf.1 ++ " */\n" ++ pf.2.content ++ "\n" else a) acc := by
  intro fs
  induction fs with
  | nil => intro acc; rfl
  | cons kv rest ih =>
    intro acc
    by_cases hk : (kv.1 == "index.html") = true
    · have hk2 : kv.1 = "index.html" := by simpa using hk
      simp only [List.map_cons, List.foldl_cons, hk2]
      rw [if_pos (show ("index.html" == "index.html") = true from rfl)]
      simp only [strEndsWith_indexHtml_css, Bool.false_eq_true, if_false]
      exact ih acc
    · rw [Bool.not_eq_true] at hk
      simp only [List.map_cons, hk, Bool.false_eq_true, if_false, List.foldl_cons]
      exact ih _

theorem cssContentOf_alSet_idx (fs : FileSystem) (v : FileRec) :
    cssContentOf (alSet fs "index.html" v) = cssContentOf fs := by
  by_cases h : fs.any (fun kv => kv.1 == "index.html") = true
  · simp only [cssContentOf, alSet, h, if_pos]
    exact cssContentOf_fold_mapset_idx v fs ""
  · rw [Bool.not_eq_true] at h
    simp only [cssContentOf, alSet, h, Bool.false_eq_true, if_false,
      List.foldl_append, List.foldl_cons, List.foldl_nil,
      strEndsWith_indexHtml_css, Bool.false_eq_true, if_false]

theorem injectBodyScript_contains_err (doc : String) :
    containsSub errorScript (injectBodyScript doc) = true := by
  have herr : containsSub errorScript errorScript = true := by
    simp only [containsSub]
    exact splitFirstL_isSome_of_startsWith _ _ (startsWithL_self _)
  by_cases hb : containsSub bodyTag doc = true
  · obtain ⟨heq, _⟩ :=
      replaceFirstStr_eq_noDollar doc bodyTag (bodyTag ++ errorScript) hb (by decide)
    simp only [injectBodyScript, hb, if_pos, heq]
    have h1 : containsSub errorScript (errorScript ++ splitPost bodyTag doc) = true := by
      simp only [containsSub, strAppend_data]
      exact splitFirstL_isSome_of_startsWith _ _
        (startsWithL_append_of _ _ _ (startsWithL_self _))
    have h2 := containsSub_append_right errorScript _
      (splitPre bodyTag doc ++ bodyTag) h1
    have hassoc : splitPre bodyTag doc ++ bodyTag ++
        (errorScript ++ splitPost bodyTag doc) =
        splitPre bodyTag doc ++ (bodyTag ++ errorScript) ++ splitPost bodyTag doc := by
      apply strExt
      simp only [strAppend_data, List.append_assoc]
    rw [hassoc] at h2
    exact h2
  · rw [Bool.not_eq_true] at hb
    simp only [injectBodyScript, hb, Bool.false_eq_true, if_false]
    exact containsSub_append_right errorScript errorScript doc herr

/-- C5: the build is total — every result document carries the injected
error-instrumentation script — and when the snapshot's index.html entry
is absent or empty the built-in golden shell (a complete HTML document)
is substituted: the build behaves exactly as if the shell were stored in
the snapshot. -/
theorem buildPreview_total_fallback :
    (∀ fs : FileSystem, containsSub errorScript (buildPreviewContent fs) = true) ∧
    (∀ fs : FileSystem,
      ((alGet fs "index.html").map FileRec.content).getD "" = "" →
      entryHtmlOf fs = shellHtml ∧
      buildPreviewContent fs =
        buildPreviewContent (alSet fs "index.html"
          (FileRec.mk "index.html" "html" shellHtml))) ∧
    containsSub "</html>" shellHtml = true := by
  refine ⟨?_, ?_, by decide⟩
  · intro fs
    exact injectBodyScript_contains_err _
  · intro fs h
    have hentry : entryHtmlOf fs = shellHtml := by
      simp only [entryHtmlOf, h]
      rfl
    refine ⟨hentry, ?_⟩
    have hentry2 : entryHtmlOf (alSet fs "index.html"
        (FileRec.mk "index.html" "html" shellHtml)) = shellHtml := by
      simp only [entryHtmlOf, alGet_alSet_self, Option.map_some, Option.getD_some]
      have hne : (shellHtml == "") = false := by decide
      simp [hne]
    simp only [buildPreviewContent, hentry, hentry2, importsOf_alSet_idx,
      styleTagOf, cssContentOf_alSet_idx]

/-- Witness for C5 at the empty snapshot. -/
theorem buildPreview_total_fallback_witness :
    ((alGet ([] : FileSystem) "index.html").map FileRec.content).getD "" = "" ∧
    entryHtmlOf [] = shellHtml ∧
    buildPreviewContent [] =
      buildPreviewContent (alSet [] "index.html"
        (FileRec.mk "index.html" "html" shellHtml)) ∧
    containsSub errorScript (buildPreviewContent []) = true :=
  ⟨rfl,
   (buildPreview_total_fallback.2.1 [] rfl).1,
   (buildPreview_total_fallback.2.1 [] rfl).2,
   buildPreview_total_fallback.1 []⟩


/-! ## Claim C8: graceful head/body injection fallback -/

/-- C8 counterexample: a CSS file whose content holds a dollar-apostrophe
sequence is not inserted verbatim by the head injection — JS replacement
substitution expands the sequence to the text after the match — so the
style block as synthesized does not appear in the built document even
though the entry document has a literal head tag. -/
theorem style_block_substitution_cex :
    containsSub "$\x27" (styleTagOf
      [("index.html", FileRec.mk "index.html" "html" "<head>xq"),
       ("s.css", FileRec.mk "s.css" "css" "a$\x27b")]) = true ∧
    containsSub "$\x27" (buildPreviewContent
      [("index.html", FileRec.mk "index.html" "html" "<head>xq"),
       ("s.css", FileRec.mk "s.css" "css" "a$\x27b")]) = false ∧
    containsSub "axqb" (buildPreviewContent
      [("index.html", FileRec.mk "index.html" "html" "<head>xq"),
       ("s.css", FileRec.mk "s.css" "css" "a$\x27b")]) = true :=
  ⟨by decide, by decide, by decide⟩

/-- C8 (amended): the assembler degrades gracefully: when the document
has no literal head tag the blocks are prepended verbatim, otherwise the
replacement text — the head tag followed by the blocks — is inserted at
the first occurrence after JS replacement-string substitution, which is
verbatim insertion exactly when the blocks contain no dollar character;
when the document has no literal body tag the error script is appended
verbatim, otherwise it is inserted verbatim (the error script contains
no dollar sequences) immediately after the first body tag; in every
combination a document containing the error script is produced, and the
build is the composition of these injections. -/
theorem assembler_degrades_gracefully :
    (∀ doc blocks : String,
      containsSub headTag doc = false → injectHeadBlocks doc blocks = blocks ++ doc) ∧
    (∀ doc blocks : String,
      containsSub headTag doc = true →
        injectHeadBlocks doc blocks =
          splitPre headTag doc ++ substitutedRepl (headTag ++ blocks) headTag doc ++
            splitPost headTag doc ∧
        doc = splitPre headTag doc ++ headTag ++ splitPost headTag doc) ∧
    (∀ doc blocks : String,
      containsSub headTag doc = true → noDollar blocks = true →
        injectHeadBlocks doc blocks =
          splitPre headTag doc ++ headTag ++ blocks ++ splitPost headTag doc) ∧
    (∀ doc : String,
      containsSub bodyTag doc = false → injectBodyScript doc = doc ++ errorScript) ∧
    (∀ doc : String,
      containsSub bodyTag doc = true →
        injectBodyScript doc =
          splitPre bodyTag doc ++ bodyTag ++ errorScript ++ splitPost bodyTag doc ∧
        doc = splitPre bodyTag doc ++ bodyTag ++ splitPost bodyTag doc) ∧
    (∀ doc : String, containsSub errorScript (injectBodyScript doc) = true) ∧
    (∀ files : FileSystem,
      buildPreviewContent files =
        injectBodyScript (injectHeadBlocks (rewriteModuleScriptTags (entryHtmlOf files))
          (importMapScriptFor (importsOf files) ++ styleTagOf files))) := by
  refine ⟨?_, ?_, ?_, ?_, ?_, ?_, ?_⟩
  · intro doc blocks h
    simp [injectHeadBlocks, h]
  · intro doc blocks h
    obtain ⟨heq, hdec⟩ := replaceFirstStr_eq doc headTag (headTag ++ blocks) h
    refine ⟨?_, hdec⟩
    simp only [injectHeadBlocks, h, if_pos, heq]
  · intro doc blocks h hd
    have hd2 : noDollar (headTag ++ blocks) = true :=
      noDollar_append headTag blocks (by decide) hd
    obtain ⟨heq, _⟩ := replaceFirstStr_eq_noDollar doc headTag (headTag ++ blocks) h hd2
    simp only [injectHeadBlocks, h, if_pos, heq]
    apply strExt
    simp only [strAppend_data, List.append_assoc]
  · intro doc h
    simp [injectBodyScript, h]
  · intro doc h
    obtain ⟨heq, hdec⟩ :=
      replaceFirstStr_eq_noDollar doc bodyTag (bodyTag ++ errorScript) h (by decide)
    refine ⟨?_, hdec⟩
    simp only [injectBodyScript, h, if_pos, heq]
    apply strExt
    simp only [strAppend_data, List.append_assoc]
  · intro doc
    exact injectBodyScript_contains_err doc
  · intro files
    rfl

/-- Witness for the amended C8: malformed and well-formed documents in
both injection stages, the blocks dollar-free. -/
theorem assembler_degrades_gracefully_witness :
    containsSub headTag "<p>x</p>" = false ∧
    injectHeadBlocks "<p>x</p>" "B" = "B" ++ "<p>x</p>" ∧
    containsSub bodyTag "<p>x</p>" = false ∧
    injectBodyScript "<p>x</p>" = "<p>x</p>" ++ errorScript ∧
    containsSub headTag "<head>y" = true ∧
    noDollar "B" = true ∧
    injectHeadBlocks "<head>y" "B" =
      splitPre headTag "<head>y" ++ headTag ++ "B" ++ splitPost headTag "<head>y" ∧
    containsSub bodyTag "<body>z" = true ∧
    injectBodyScript "<body>z" =
      splitPre bodyTag "<body>z" ++ bodyTag ++ errorScript ++ splitPost bodyTag "<body>z" :=
  ⟨by decide,
   assembler_degrades_gracefully.1 "<p>x</p>" "B" (by decide),
   by decide,
   assembler_degrades_gracefully.2.2.2.1 "<p>x</p>" (by decide),
   by decide,
   by decide,
   assembler_degrades_gracefully.2.2.1 "<head>y" "B" (by decide) (by decide),
   by decide,
   (assembler_degrades_gracefully.2.2.2.2.1 "<body>z" (by decide)).1⟩

/-! ## Claim C10: the injection matches only the literal tags -/

/-- C10 (amended): the head/body injection matches only the literal
six-character strings of `headTag` and `bodyTag` and replaces only the
first occurrence: a tag written with attributes is treated as absent and
the fallback applies, and when the literal tag occurs the replacement is
inserted exactly once, at the first occurrence (the preceding prefix
contains no earlier occurrence), the inserted text undergoing JS
replacement-string substitution — verbatim whenever the blocks contain
no dollar character, and always verbatim for the dollar-free body
script. -/
theorem injection_literal_first_occurrence :
    headTag = "<head>" ∧ bodyTag = "<body>" ∧
    headTag.length = 6 ∧ bodyTag.length = 6 ∧
    (∀ doc blocks : String,
      containsSub headTag doc = false → injectHeadBlocks doc blocks = blocks ++ doc) ∧
    (∀ doc : String,
      containsSub bodyTag doc = false → injectBodyScript doc = doc ++ errorScript) ∧
    containsSub headTag "<head lang=\"en\">" = false ∧
    containsSub bodyTag "<body class=\"x\">" = false ∧
    (∀ doc blocks : String,
      containsSub headTag doc = true →
        injectHeadBlocks doc blocks =
          splitPre headTag doc ++ substitutedRepl (headTag ++ blocks) headTag doc ++
            splitPost headTag doc ∧
        containsSub headTag (splitPre headTag doc) = false) ∧
    (∀ doc blocks : String,
      containsSub headTag doc = true → noDollar blocks = true →
        injectHeadBlocks doc blocks =
          splitPre headTag doc ++ headTag ++ blocks ++ splitPost headTag doc) ∧
    (∀ doc : String,
      containsSub bodyTag doc = true →
        injectBodyScript doc =
          splitPre bodyTag doc ++ bodyTag ++ errorScript ++ splitPost bodyTag doc ∧
        containsSub bodyTag (splitPre bodyTag doc) = false) := by
  refine ⟨rfl, rfl, by decide, by decide, ?_, ?_, by decide, by decide, ?_, ?_, ?_⟩
  · intro doc blocks h
    simp [injectHeadBlocks, h]
  · intro doc h
    simp [injectBodyScript, h]
  · intro doc blocks h
    obtain ⟨heq, _⟩ := replaceFirstStr_eq doc headTag (headTag ++ blocks) h
    have hsome : (splitFirstL headTag.data doc.data).isSome = true := by
      simpa [containsSub] using h
    refine ⟨?_, ?_⟩
    · simp only [injectHeadBlocks, h, if_pos, heq]
    · cases hsp : splitFirstL headTag.data doc.data with
      | none => rw [hsp] at hsome; simp at hsome
      | some p =>
        have hclean := splitFirstL_prefix_clean headTag.data (by decide)
          doc.data p.1 p.2 hsp
        simp only [containsSub, splitPre, hsp]
        rw [hclean]
        rfl
  · intro doc blocks h hd
    have hd2 : noDollar (headTag ++ blocks) = true :=
      noDollar_append headTag blocks (by decide) hd
    obtain ⟨heq, _⟩ := replaceFirstStr_eq_noDollar doc headTag (headTag ++ blocks) h hd2
    simp only [injectHeadBlocks, h, if_pos, heq]
    apply strExt
    simp only [strAppend_data, List.append_assoc]
  · intro doc h
    obtain ⟨heq, _⟩ :=
      replaceFirstStr_eq_noDollar doc bodyTag (bodyTag ++ errorScript) h (by decide)
    have hsome : (splitFirstL bodyTag.data doc.data).isSome = true := by
      simpa [containsSub] using h
    refine ⟨?_, ?_⟩
    · simp only [injectBodyScript, h, if_pos, heq]
      apply strExt
      simp only [strAppend_data, List.append_assoc]
    · cases hsp : splitFirstL bodyTag.data doc.data with
      | none => rw [hsp] at hsome; simp at hsome
      | some p =>
        have hclean := splitFirstL_prefix_clean bodyTag.data (by decide)
          doc.data p.1 p.2 hsp
        simp only [containsSub, splitPre, hsp]
        rw [hclean]
        rfl

/-- C10 counterexample: the matched tags are six characters long, not
seven, and a dollar-apostrophe sequence in the blocks is not inserted
verbatim (it expands to the text after the matched head tag). -/
theorem injection_tag_length_not_seven :
    headTag.length ≠ 7 ∧ bodyTag.length ≠ 7 ∧
    headTag.length = 6 ∧ bodyTag.length = 6 ∧
    injectHeadBlocks "<head>x" "$\x27" = "<head>xx" ∧
    injectHeadBlocks "<head>x" "$\x27" ≠ "" ++ headTag ++ "$\x27" ++ "x" :=
  ⟨by decide, by decide, by decide, by decide, by decide, by decide⟩

/-- Witness for the amended C10 at concrete documents. -/
theorem injection_literal_first_occurrence_witness :
    containsSub headTag "<head lang=\"en\"><body class=\"x\">z" = false ∧
    injectHeadBlocks "<head lang=\"en\"><body class=\"x\">z" "B" =
      "B" ++ "<head lang=\"en\"><body class=\"x\">z" ∧
    containsSub headTag "<head>w" = true ∧
    noDollar "B" = true ∧
    injectHeadBlocks "<head>w" "B" =
      splitPre headTag "<head>w" ++ headTag ++ "B" ++ splitPost headTag "<head>w" ∧
    containsSub bodyTag "<head><body><body>" = true ∧
    injectBodyScript "<head><body><body>" =
      splitPre bodyTag "<head><body><body>" ++ bodyTag ++ errorScript ++
        splitPost bodyTag "<head><body><body>" ∧
    containsSub bodyTag (splitPre bodyTag "<head><body><body>") = false :=
  ⟨by decide,
   injection_literal_first_occurrence.2.2.2.2.1 "<head lang=\"en\"><body class=\"x\">z"
     "B" (by decide),
   by decide,
   by decide,
   injection_literal_first_occurrence.2.2.2.2.2.2.2.2.2.1 "<head>w" "B"
     (by decide) (by decide),
   by decide,
   (injection_literal_first_occurrence.2.2.2.2.2.2.2.2.2.2 "<head><body><body>"
     (by decide)).1,
   (injection_literal_first_occurrence.2.2.2.2.2.2.2.2.2.2 "<head><body><body>"
     (by decide)).2⟩

/-! ## Claim C6: rewriter idempotence -/

/-- C6 counterexample: a specifier whose resolution itself begins with a
slash is rewritten again by a second pass, so the rewrite is not
idempotent on every file. -/
theorem rewrite_not_idempotent :
    processFile "src/a.js" "import x from \x27..//y\x27" =
      "import x from \x27/y\x27" ∧
    processFile "src/a.js" (processFile "src/a.js" "import x from \x27..//y\x27") =
      "import x from \x27y\x27" ∧
    processFile "src/a.js" (processFile "src/a.js" "import x from \x27..//y\x27") ≠
      processFile "src/a.js" "import x from \x27..//y\x27" :=
  ⟨by decide, by decide, by decide⟩

/-- C6 (amended): the rewrite is a pure function — rewriting the same
unmodified source twice yields identical output both times — and a second
rewrite changes nothing on files whose rewritten specifiers no longer
begin with `.` or `/`, as in the canonical static and dynamic examples;
full idempotence fails in general (see the counterexample). -/
theorem rewrite_deterministic_idempotent_on_canonical :
    (∀ path content : String, processFile path content = processFile path content) ∧
    processFile "src/a/b.js"
        (processFile "src/a/b.js" "import \x7b x \x7d from \x27./c.js\x27") =
      processFile "src/a/b.js" "import \x7b x \x7d from \x27./c.js\x27" ∧
    processFile "src/a/b.js" "import \x7b x \x7d from \x27./c.js\x27" =
      "import \x7b x \x7d from \x27src/a/c.js\x27" ∧
    processFile "a.js" (processFile "a.js" "const p = import(\x27./m.js\x27)") =
      processFile "a.js" "const p = import(\x27./m.js\x27)" ∧
    processFile "src/main.js"
        (processFile "src/main.js"
          "import \x7bh\x7d from \x27preact\x27; console.log(\x27hi\x27)") =
      processFile "src/main.js"
        "import \x7bh\x7d from \x27preact\x27; console.log(\x27hi\x27)" :=
  ⟨fun _ _ => rfl, by decide, by decide, by decide, by decide⟩

/-! ## Claim C3: the end-to-end scenario -/

/-- C3: building the two-file scenario yields a document that contains
the import-map script block with preact mapped to its CDN URL, an empty
synthesized style block (no CSS files), the entry script rewritten to an
inline module import of the canonical path, and the error-handler script
immediately after the body tag. -/
theorem endToEnd_scenario :
    containsSub "<script type=\"importmap\">" (buildPreviewContent fsScenario) = true ∧
    containsSub "\"preact\": \"https://esm.sh/preact@10.19.6\""
      (buildPreviewContent fsScenario) = true ∧
    styleTagOf fsScenario = "" ∧
    containsSub "<script type=\"module\">import \"src/main.js\"</script>"
      (buildPreviewContent fsScenario) = true ∧
    containsSub (bodyTag ++ errorScript) (buildPreviewContent fsScenario) = true := by
  have hb : containsSub bodyTag scenarioHeadDoc = true := by decide
  obtain ⟨heq, _⟩ :=
    replaceFirstStr_eq_noDollar scenarioHeadDoc bodyTag (bodyTag ++ errorScript) hb
      (by decide)
  have hbuild : buildPreviewContent fsScenario = injectBodyScript scenarioHeadDoc := rfl
  have hrepl : injectBodyScript scenarioHeadDoc =
      splitPre bodyTag scenarioHeadDoc ++ (bodyTag ++ errorScript) ++
        splitPost bodyTag scenarioHeadDoc := by
    rw [show injectBodyScript scenarioHeadDoc =
      replaceFirstStr scenarioHeadDoc bodyTag (bodyTag ++ errorScript) from by
        simp [injectBodyScript, hb]]
    exact heq
  refine ⟨by decide, by decide, by decide, ?_, ?_⟩
  · have hpost : containsSub "<script type=\"module\">import \"src/main.js\"</script>"
        (splitPost bodyTag scenarioHeadDoc) = true := by decide
    rw [hbuild, hrepl]
    exact containsSub_append_right _ _
      (splitPre bodyTag scenarioHeadDoc ++ (bodyTag ++ errorScript)) hpost
  · rw [hbuild, hrepl]
    have h1 : containsSub (bodyTag ++ errorScript)
        ((bodyTag ++ errorScript) ++ splitPost bodyTag scenarioHeadDoc) = true := by
      simp only [containsSub, strAppend_data]
      exact splitFirstL_isSome_of_startsWith _ _
        (startsWithL_append_of _ _ _ (startsWithL_self _))
    have h2 := containsSub_append_right (bodyTag ++ errorScript) _
      (splitPre bodyTag scenarioHeadDoc) h1
    have hassoc : splitPre bodyTag scenarioHeadDoc ++
        ((bodyTag ++ errorScript) ++ splitPost bodyTag scenarioHeadDoc) =
        splitPre bodyTag scenarioHeadDoc ++ (bodyTag ++ errorScript) ++
          splitPost bodyTag scenarioHeadDoc := by
      apply strExt
      simp only [strAppend_data, List.append_assoc]
    rw [hassoc] at h2
    exact h2

end Preview
